import Mathlib

/-!
# Verification of the cryptos kernel core (AHCI driver, IDT manager, preemption driver)

Shallow embedding of the relevant parts of `src/drivers/ahci/mod.rs` and
`src/arch/x86_64/interrupts.rs`, together with theorems settling the frozen
claims about them.  Machine integers are modelled as `Nat` with explicit
`% 2^w` where wrap-around matters; code paths that panic are modelled with
`Option` (`none` = panic).
-/

namespace Cryptos

/-! ## Bit manipulation helpers (the `bit_field` crate operations used by the code)

`set_bits (lo..lo+w, v)` replaces bits `[lo, lo+w)` of `x` with `v`
(the crate asserts `v < 2^w`; every call site below satisfies this, so the
model simply truncates with `% 2^w`).  `set_bit i b` forces bit `i` to `b`.
`get_bits (lo..=hi)` extracts bits `lo..=hi`. -/

/-- `BitField::set_bits(lo..lo+w, v)` on a value `x` (result as a `Nat`). -/
def setBitsLow (x w v : Nat) : Nat :=
  2 ^ w * (x / 2 ^ w) + v % 2 ^ w

/-- `BitField::set_bit(i, b)` on a value `x` known to be below `2^(i+1)`
(all uses below are on `u32` values and bit 31, so `x < 2^32`). -/
def setBitTop (x i : Nat) (b : Bool) : Nat :=
  x % 2 ^ i + cond b (2 ^ i) 0

/-- `BitField::get_bits(lo..=hi)` on a value `x`. -/
def getBitsRange (x lo hi : Nat) : Nat :=
  (x >>> lo) % 2 ^ (hi - lo + 1)

/-! ## The DMA buffer split (`DmaRequest::new`, src/drivers/ahci/mod.rs:316-342)

`DmaRequest::new(sector, count)` starts from `size = count * 512` and
repeatedly carves off `data_size = min(size, 0x2000)` bytes, allocating one
DMA buffer per chunk, until `size` reaches zero.  `splitSizes` returns the
list of `data_size` values in allocation order. -/

/-- The list of `data_size` values produced by the `while size > 0` loop of
`DmaRequest::new` when started at `size`. -/
def splitSizes (size : Nat) : List Nat :=
  if _h : size = 0 then []
  else min size 0x2000 :: splitSizes (size - min size 0x2000)
termination_by size
decreasing_by
  simp only [Nat.min_def]
  split <;> omega

/-- A DMA buffer: physical start address and data size, mirroring `DmaBuffer`. -/
structure DmaBuffer where
  start : Nat
  data_size : Nat
deriving DecidableEq, Repr

/-- The buffer list built by `DmaRequest::new(sector, count)`:
one buffer per chunk of `splitSizes (count * 512)`, with start addresses
produced by `pmm_alloc` (abstracted as the function `alloc` giving the
physical base of the `i`-th allocation). -/
def dmaRequestBuffers (count : Nat) (alloc : Nat → Nat) : List DmaBuffer :=
  (splitSizes (count * 512)).enum.map fun p => ⟨alloc p.1, p.2⟩

/-! ## PRDT entry construction (`HbaPort::run_command`, src/drivers/ahci/mod.rs:806-818)

```
let length = ((count - 1) >> 4) + 1;
header.prdtl.set(length as _);
for (pri, dma) in buffer.iter().enumerate().take(length) {
    let prdt = command_table.prdt_entry_mut(pri);
    prdt.dba.set(buffer[pri].start);
    prdt.set_data_byte_count(buffer[pri].data_size - 1);
    prdt.set_interrupt_on_completion(pri == length - 1);
}
```
`set_data_byte_count(c)` writes `c` into bits `0..21` of the entry's flags
word; `set_interrupt_on_completion(b)` writes `b` into bit 31.  The flags
word read before those writes is whatever the command-table memory holds,
modelled by `initFlags pri` (a `u32`, truncated to 32 bits). -/

/-- The PRDT entry count computed by `run_command`: `((count - 1) >> 4) + 1`. -/
def prdtEntryCount (count : Nat) : Nat :=
  ((count - 1) >>> 4) + 1

/-- Final flags word of one PRDT entry after `set_data_byte_count (d - 1)`
and `set_interrupt_on_completion ioc` starting from the word `init`. -/
def prdtEntryFlags (init d : Nat) (ioc : Bool) : Nat :=
  setBitTop (setBitsLow (init % 2 ^ 32) 21 (d - 1)) 31 ioc

/-- The `for (pri, dma) in buffer.iter().enumerate().take(length)` loop:
walks the buffer list with running index `pri`, stopping once `pri` reaches
`len`, and produces the `(dba, flags)` pair written to each PRDT entry. -/
def buildPrdtFrom (len : Nat) (initFlags : Nat → Nat) :
    Nat → List DmaBuffer → List (Nat × Nat)
  | _, [] => []
  | pri, b :: rest =>
    if pri < len then
      (b.start, prdtEntryFlags (initFlags pri) b.data_size (pri == len - 1)) ::
        buildPrdtFrom len initFlags (pri + 1) rest
    else []

/-- The PRDT entries written by `run_command` for buffer list `bufs` and
entry count `len`. -/
def buildPrdt (bufs : List DmaBuffer) (len : Nat) (initFlags : Nat → Nat) :
    List (Nat × Nat) :=
  buildPrdtFrom len initFlags 0 bufs

/-! ### Structural lemmas about the DMA split -/

theorem splitSizes_zero : splitSizes 0 = [] := by
  rw [splitSizes.eq_def]
  norm_num

theorem splitSizes_cons (x : Nat) (hx : ¬ x = 0) :
    splitSizes x = min x 8192 :: splitSizes (x - min x 8192) := by
  rw [splitSizes.eq_def]
  simp only [dif_neg hx]

/-- Closed form of the greedy 8 KiB split: `size / 8192` full chunks followed
by the remainder, if any. -/
theorem splitSizes_closed (size : Nat) :
    splitSizes size = List.replicate (size / 8192) 8192 ++
      (if size % 8192 = 0 then [] else [size % 8192]) := by
  induction size using splitSizes.induct with
  | case1 => rw [splitSizes_zero]; rfl
  | case2 x hx ih =>
    rw [splitSizes_cons x hx, ih]
    rcases Nat.lt_or_ge x 8192 with hlt | hge
    · have h1 : min x 8192 = x := by omega
      have h2 : x / 8192 = 0 := by omega
      have h3 : x % 8192 = x := by omega
      have h4 : x - x = 0 := by omega
      rw [h1, h4, h2, h3, if_neg hx]
      rfl
    · have h1 : min x 8192 = 8192 := by omega
      have h2 : x / 8192 = (x - 8192) / 8192 + 1 := by omega
      have h3 : x % 8192 = (x - 8192) % 8192 := by omega
      rw [h1, h2, h3, List.replicate_succ, List.cons_append]

theorem splitSizes_sum (size : Nat) : (splitSizes size).sum = size := by
  induction size using splitSizes.induct with
  | case1 => rw [splitSizes_zero]; rfl
  | case2 x hx ih =>
    rw [splitSizes_cons x hx, List.sum_cons, ih]
    omega

theorem splitSizes_length (size : Nat) :
    (splitSizes size).length = size / 8192 + (if size % 8192 = 0 then 0 else 1) := by
  rw [splitSizes_closed]
  rcases Nat.decEq (size % 8192) 0 with h | h <;> simp [h]

theorem splitSizes_mem_bounds (size d : Nat) (hd : d ∈ splitSizes size) :
    1 ≤ d ∧ d ≤ 8192 := by
  rw [splitSizes_closed] at hd
  rcases List.mem_append.1 hd with h | h
  · have := List.eq_of_mem_replicate h
    omega
  · by_cases h0 : size % 8192 = 0
    · rw [if_pos h0] at h
      cases h
    · rw [if_neg h0] at h
      have h1 := List.mem_singleton.1 h
      have h2 := Nat.mod_lt size (show 0 < 8192 by norm_num)
      omega

/-! ### Lemmas about the PRDT entry words -/

theorem prdtEntryFlags_mod (init d : Nat) (ioc : Bool) :
    prdtEntryFlags init d ioc % 2 ^ 21 = (d - 1) % 2 ^ 21 := by
  unfold prdtEntryFlags setBitTop setBitsLow
  cases ioc
  · simp only [Bool.cond_false]
    omega
  · simp only [Bool.cond_true]
    omega

theorem prdtEntryFlags_testBit31 (init d : Nat) (ioc : Bool) :
    Nat.testBit (prdtEntryFlags init d ioc) 31 = ioc := by
  unfold prdtEntryFlags setBitTop setBitsLow
  rw [Nat.testBit_to_div_mod]
  cases ioc
  · simp only [Bool.cond_false]
    simp only [decide_eq_false_iff_not]
    omega
  · simp only [Bool.cond_true]
    simp only [decide_eq_true_eq]
    omega

theorem prdtEntryCount_eq (count : Nat) (h : 1 ≤ count) :
    prdtEntryCount count = (count + 15) / 16 := by
  unfold prdtEntryCount
  rw [Nat.shiftRight_eq_div_pow]
  omega

/-! ### Lemmas about the PRDT build loop -/

theorem buildPrdtFrom_length (len : Nat) (f : Nat → Nat) :
    ∀ (bufs : List DmaBuffer) (pri : Nat), pri + bufs.length = len →
      (buildPrdtFrom len f pri bufs).length = bufs.length := by
  intro bufs
  induction bufs with
  | nil => intro pri _; rfl
  | cons b rest ih =>
    intro pri hpri
    have hlt : pri < len := by simp at hpri; omega
    rw [buildPrdtFrom, if_pos hlt]
    have := ih (pri + 1) (by simp at hpri ⊢; omega)
    simp [this]

theorem buildPrdtFrom_sum (len : Nat) (f : Nat → Nat) :
    ∀ (bufs : List DmaBuffer) (pri : Nat), pri + bufs.length = len →
      (∀ b ∈ bufs, 1 ≤ b.data_size ∧ b.data_size ≤ 8192) →
      ((buildPrdtFrom len f pri bufs).map (fun e => e.2 % 2 ^ 21 + 1)).sum
        = (bufs.map DmaBuffer.data_size).sum := by
  intro bufs
  induction bufs with
  | nil => intro pri _ _; rfl
  | cons b rest ih =>
    intro pri hpri hmem
    have hlt : pri < len := by simp at hpri; omega
    rw [buildPrdtFrom, if_pos hlt]
    have hb := hmem b (List.mem_cons_self b rest)
    have hrest := ih (pri + 1) (by simp at hpri ⊢; omega)
      (fun c hc => hmem c (List.mem_cons_of_mem b hc))
    simp only [List.map_cons, List.sum_cons, hrest, prdtEntryFlags_mod]
    have : (b.data_size - 1) % 2 ^ 21 = b.data_size - 1 := by
      apply Nat.mod_eq_of_lt
      norm_num
      omega
    omega

theorem buildPrdtFrom_ioc (len : Nat) (f : Nat → Nat) :
    ∀ (bufs : List DmaBuffer) (pri : Nat), bufs ≠ [] → pri + bufs.length = len →
      (buildPrdtFrom len f pri bufs).map (fun e => Nat.testBit e.2 31)
        = List.replicate (bufs.length - 1) false ++ [true] := by
  intro bufs
  induction bufs with
  | nil => intro pri h _; exact absurd rfl h
  | cons b rest ih =>
    intro pri _ hpri
    have hlt : pri < len := by simp at hpri; omega
    rw [buildPrdtFrom, if_pos hlt]
    rcases rest with _ | ⟨c, rest'⟩
    · simp at hpri
      have : (pri == len - 1) = true := by
        rw [beq_iff_eq]; omega
      simp [buildPrdtFrom, prdtEntryFlags_testBit31, this]
    · have hne : (c :: rest' : List DmaBuffer) ≠ [] := by simp
      have hrest := ih (pri + 1) hne (by simp at hpri ⊢; omega)
      have : (pri == len - 1) = false := by
        rw [beq_eq_false_iff_ne]
        simp at hpri
        omega
      simp only [List.map_cons, hrest, prdtEntryFlags_testBit31, this]
      have hlen : (b :: c :: rest' : List DmaBuffer).length - 1
          = ((c :: rest' : List DmaBuffer).length - 1) + 1 := by simp
      rw [hlen, List.replicate_succ, List.cons_append]

/-- Claim C1: for every DMA request of `count ≥ 1` sectors whose buffer
list has the data sizes produced by `DmaRequest::new` (page-aligned chunks of
at most 8 KiB), `HbaPort::run_command` builds exactly `⌈count/16⌉` PRDT
entries, sets interrupt-on-completion on the last built entry and on no
other, and the byte counts stored in the entries (each one less than the
buffer's size, per hardware convention) sum — after adding one back per
entry — to `count * 512`. -/
theorem prdt_construction (count : Nat) (hcount : 1 ≤ count)
    (bufs : List DmaBuffer)
    (hbufs : bufs.map DmaBuffer.data_size = splitSizes (count * 512))
    (initFlags : Nat → Nat) :
    (buildPrdt bufs (prdtEntryCount count) initFlags).length = (count + 15) / 16 ∧
    (buildPrdt bufs (prdtEntryCount count) initFlags).map (fun e => Nat.testBit e.2 31)
      = List.replicate ((count + 15) / 16 - 1) false ++ [true] ∧
    ((buildPrdt bufs (prdtEntryCount count) initFlags).map (fun e => e.2 % 2 ^ 21 + 1)).sum
      = count * 512 := by
  have hsz : (count * 512) % 8192 = 0 ∨ ¬ (count * 512) % 8192 = 0 := by tauto
  have hlen : bufs.length = (count + 15) / 16 := by
    have h1 : bufs.length = (splitSizes (count * 512)).length := by
      rw [← hbufs, List.length_map]
    rw [h1, splitSizes_length]
    rcases hsz with h | h <;> rw [h1] at * <;> simp [h] <;> omega
  have hcnt : prdtEntryCount count = (count + 15) / 16 := prdtEntryCount_eq count hcount
  have hfull : 0 + bufs.length = prdtEntryCount count := by rw [hcnt]; omega
  have hne : bufs ≠ [] := by
    intro h
    rw [h] at hlen
    simp at hlen
    omega
  have hmem : ∀ b ∈ bufs, 1 ≤ b.data_size ∧ b.data_size ≤ 8192 := by
    intro b hb
    apply splitSizes_mem_bounds (count * 512)
    rw [← hbufs]
    exact List.mem_map_of_mem DmaBuffer.data_size hb
  refine ⟨?_, ?_, ?_⟩
  · rw [buildPrdt, buildPrdtFrom_length _ _ bufs 0 hfull, hlen]
  · rw [buildPrdt, buildPrdtFrom_ioc _ _ bufs 0 hne hfull, hlen]
  · rw [buildPrdt, buildPrdtFrom_sum _ _ bufs 0 hfull hmem, hbufs, splitSizes_sum]

/-- Witness for `prdt_construction` at `count = 17` (two buffers, 8192+512
bytes): 2 entries, interrupt-on-completion exactly on the second, byte
counts summing back to `17 * 512`. -/
theorem prdt_construction_witness :
    (buildPrdt [⟨4096, 8192⟩, ⟨12288, 512⟩] (prdtEntryCount 17) (fun _ => 0)).length
        = (17 + 15) / 16 ∧
    (buildPrdt [⟨4096, 8192⟩, ⟨12288, 512⟩] (prdtEntryCount 17) (fun _ => 0)).map
        (fun e => Nat.testBit e.2 31)
      = List.replicate ((17 + 15) / 16 - 1) false ++ [true] ∧
    ((buildPrdt [⟨4096, 8192⟩, ⟨12288, 512⟩] (prdtEntryCount 17) (fun _ => 0)).map
        (fun e => e.2 % 2 ^ 21 + 1)).sum = 17 * 512 :=
  prdt_construction 17 (by norm_num) [⟨4096, 8192⟩, ⟨12288, 512⟩]
    (by simp [splitSizes]) (fun _ => 0)

/-! ## The round-robin preemption handler (`task_sched`, src/arch/x86_64/interrupts.rs:146-182)

The handler reads the shared process table `PTABLE` (a map whose keys are
the positions `0 .. len-1` of the schedulable units, per the spec's data
model; the `process` module itself is outside `src/`) and the
sequentially-consistent counter `PTABLE_IDX : u64`:

* empty table: nothing happens;
* exactly one entry: the entry at key `PTABLE_IDX` is marked `Runnable` and
  run;
* otherwise: the entry at key `PTABLE_IDX - 1` (u64 arithmetic — wrapping
  in release builds; an overflow panic in debug builds, which the `none`
  result covers as well) is marked `Blocked`, the entry at `PTABLE_IDX` is
  marked `Runnable` and run;
* finally `PTABLE_IDX` is incremented when `PTABLE_IDX < len`, and reset to
  `0` otherwise.

Map indexing with a key that is not present panics; `Option` models this
(`none` = panic).  `Process::run` is modelled as succeeding (its errors are
an acknowledged gap in the source).  The trailing LAPIC/IPI forwarding and
the end-of-interrupt signal do not touch the table or the counter and are
not modelled. -/

/-- A schedulable unit's state, as far as the handler sets it. -/
inductive PState where
  | Runnable
  | Blocked
deriving DecidableEq

/-- Process table (entries at keys `0 .. len-1`) plus the `PTABLE_IDX` counter. -/
structure SchedState where
  table : List PState
  idx : Nat
deriving DecidableEq

/-- `PTABLE_IDX.load(...) - 1` on the `u64` counter (wrapping semantics). -/
def wrapSub1 (n : Nat) : Nat :=
  (n + (2 ^ 64 - 1)) % 2 ^ 64

/-- `PTABLE[&k].write().set_state(s)`: fails (panics) when `k` is not a key. -/
def ptableSet (t : List PState) (k : Nat) (s : PState) : Option (List PState) :=
  if k < t.length then some (t.set k s) else none

/-- One invocation of the `task_sched` handler restricted to its effect on
the process table and the index counter. -/
def task_sched_step (s : SchedState) : Option SchedState :=
  if s.table.isEmpty then some s
  else
    let afterRun : Option (List PState) :=
      if s.table.length = 1 then
        ptableSet s.table s.idx .Runnable
      else
        match ptableSet s.table (wrapSub1 s.idx) .Blocked with
        | none => none
        | some ta => ptableSet ta s.idx .Runnable
    match afterRun with
    | none => none
    | some t =>
      let idx1 := if s.idx < s.table.length then s.idx + 1 else 0
      some ⟨t, idx1⟩

/-- Claim C4 (code bug): with a single-entry table (key 0) and index 0 the
first tick marks the entry Runnable but sets the index to `1`, which is
*outside* `[0, table length) = [0, 1)` — the update rule increments
whenever `idx < len`, so the index reaches `len` instead of wrapping there
— and the second tick then panics indexing the missing key `1`. -/
theorem task_sched_index_escapes :
    task_sched_step ⟨[PState.Runnable], 0⟩ = some ⟨[PState.Runnable], 1⟩ ∧
    ¬ 1 < [PState.Runnable].length ∧
    task_sched_step ⟨[PState.Runnable], 1⟩ = none := by
  refine ⟨rfl, by norm_num, rfl⟩

/-- Claim C10: in the multi-entry branch the previous entry's key is
computed as `PTABLE_IDX - 1` on the unsigned counter, which underflows at
index 0 (yielding `2^64 - 1`, not a key — the handler panics); with
`1 ≤ idx < len` the computation is the intended `idx - 1` and the handler
completes. -/
theorem task_sched_underflow (t : List PState) (idx : Nat)
    (hlen2 : 2 ≤ t.length) (hlen : t.length < 2 ^ 64) :
    (idx = 0 → wrapSub1 idx = 2 ^ 64 - 1 ∧ task_sched_step ⟨t, idx⟩ = none) ∧
    (1 ≤ idx → idx < t.length →
      wrapSub1 idx = idx - 1 ∧ task_sched_step ⟨t, idx⟩ ≠ none) := by
  have hne : t.isEmpty = false := by
    cases t
    · simp at hlen2
    · rfl
  have hlen1 : ¬ t.length = 1 := by omega
  constructor
  · rintro rfl
    have hw : wrapSub1 0 = 2 ^ 64 - 1 := by unfold wrapSub1; omega
    refine ⟨hw, ?_⟩
    unfold task_sched_step
    rw [hne]
    simp only [Bool.false_eq_true, if_false, if_neg hlen1, hw]
    have : ¬ 2 ^ 64 - 1 < t.length := by omega
    unfold ptableSet
    rw [if_neg this]
  · intro h1 h2
    have hw : wrapSub1 idx = idx - 1 := by unfold wrapSub1; omega
    refine ⟨hw, ?_⟩
    unfold task_sched_step
    rw [hne]
    simp only [Bool.false_eq_true, if_false, if_neg hlen1, hw]
    unfold ptableSet
    rw [if_pos (show idx - 1 < t.length by omega)]
    simp only [List.length_set]
    rw [if_pos h2]
    simp

/-- Witness for `task_sched_underflow` at a two-entry table and index 0:
the underflowed key is `2^64 - 1` and the handler panics. -/
theorem task_sched_underflow_witness :
    (0 = 0 → wrapSub1 0 = 2 ^ 64 - 1 ∧
      task_sched_step ⟨[PState.Runnable, PState.Runnable], 0⟩ = none) ∧
    (1 ≤ 0 → 0 < [PState.Runnable, PState.Runnable].length →
      wrapSub1 0 = 0 - 1 ∧
      task_sched_step ⟨[PState.Runnable, PState.Runnable], 0⟩ ≠ none) :=
  task_sched_underflow [PState.Runnable, PState.Runnable] 0 (by norm_num)
    (by norm_num)

/-! ## The IDT vector allocator (`irqalloc` / `register_handler`,
src/arch/x86_64/interrupts.rs:514-529)

The interrupt table has 256 entries; an entry is either `Entry::missing()`
(modelled as `none`) or bound to a handler function pointer (modelled as
`some p` — the `x86_64` crate's `set_handler_fn` always produces a
non-missing entry).  `irqalloc` scans `32..=255` and returns the first
vector whose entry is still missing, panicking (`none`) if every entry is
taken; it performs no writes.  `register_handler` binds a handler at the
given vector (the subsequent `init()` table reload has no effect on entry
contents). -/

/-- The interrupt descriptor table, indexed by vector. -/
def Idt := Nat → Option Nat

/-- `irqalloc()`: first vector in `32..=255` whose entry is missing. -/
def irqalloc (idt : Idt) : Option Nat :=
  (List.range' 32 224).find? fun i => (idt i).isNone

/-- `register_handler(irq, handler)`. -/
def register_handler (idt : Idt) (irq handler : Nat) : Idt :=
  fun i => if i = irq then some handler else idt i

/-- A table with every entry missing. -/
def idtAllMissing : Idt := fun _ => none

/-- Counterexample to claim C5: `irqalloc` mutates nothing, so with every
entry missing a first call returns vector 32 and a second call — no
registration in between, hence the same table — returns vector 32 again,
even though 32 was never registered (its entry is still missing). -/
theorem irqalloc_no_reservation :
    (irqalloc idtAllMissing, irqalloc idtAllMissing) = (some 32, some 32) ∧
    idtAllMissing 32 = none := by
  exact ⟨rfl, rfl⟩

/-- Claim C5 as amended: `irqalloc` returns only vectors in `[32, 255]`
whose entry is the missing sentinel; being read-only it returns the *same*
vector on a repeated call with no intervening registration, and it stops
returning a vector only once `register_handler` has bound it. -/
theorem irqalloc_spec (idt : Idt) (v handler : Nat)
    (h : irqalloc idt = some v) :
    32 ≤ v ∧ v ≤ 255 ∧ idt v = none ∧ irqalloc idt = some v ∧
    irqalloc (register_handler idt v handler) ≠ some v := by
  have h' : (List.range' 32 224).find? (fun i => (idt i).isNone) = some v := h
  have hmem : v ∈ List.range' 32 224 := List.mem_of_find?_eq_some h'
  have hrange := List.mem_range'_1.1 hmem
  have hpred := List.find?_some h'
  have hmiss : idt v = none := by
    simpa [Option.isNone_iff_eq_none] using hpred
  refine ⟨hrange.1, by omega, hmiss, h, ?_⟩
  intro h2
  have h2' : (List.range' 32 224).find?
      (fun i => ((register_handler idt v handler) i).isNone) = some v := h2
  have hpred2 := List.find?_some h2'
  unfold register_handler at hpred2
  simp at hpred2

/-- Witness for `irqalloc_spec` on the all-missing table: the allocator
returns 32; after registering a handler at 32 it no longer returns 32. -/
theorem irqalloc_spec_witness :
    32 ≤ 32 ∧ 32 ≤ 255 ∧ idtAllMissing 32 = none ∧
    irqalloc idtAllMissing = some 32 ∧
    irqalloc (register_handler idtAllMissing 32 7) ≠ some 32 :=
  irqalloc_spec idtAllMissing 32 7 rfl

/-! ## SATA status decoding and port probing
(`HbaSataStatus` / `HbaPort::probe`, src/drivers/ahci/mod.rs:596-636, 763-782) -/

/-- `HbaPortDd` (device detection). -/
inductive HbaPortDd where
  | None
  | PresentNotE
  | PresentAndE
  | Offline
deriving DecidableEq

/-- `HbaPortIpm` (interface power management). -/
inductive HbaPortIpm where
  | None
  | Active
  | Partial
  | Slumber
  | DevSleep
deriving DecidableEq

/-- `HbaSataStatus::device_detection`: match on bits `0..=3` of the status
word; values other than 0, 1, 3, 4 panic (`none`). -/
def device_detection (ssts : Nat) : Option HbaPortDd :=
  match getBitsRange ssts 0 3 with
  | 0 => some .None
  | 1 => some .PresentNotE
  | 3 => some .PresentAndE
  | 4 => some .Offline
  | _ => none

/-- `HbaSataStatus::interface_power_management`: match on bits `8..=11`;
values other than 0, 1, 2, 6, 8 panic (`none`). -/
def interface_power_management (ssts : Nat) : Option HbaPortIpm :=
  match getBitsRange ssts 8 11 with
  | 0 => some .None
  | 1 => some .Active
  | 2 => some .Partial
  | 6 => some .Slumber
  | 8 => some .DevSleep
  | _ => none

/-- `HbaPort::probe`: decode `ipm` then `dd` from the SATA status register
(a panic in either decoder aborts — `none`); the port is started, and
`probe` returns `true`, exactly when the pair is
`(PresentAndE, Active)`. -/
def probe (ssts : Nat) : Option Bool :=
  match interface_power_management ssts, device_detection ssts with
  | some ipm, some dd =>
      some (decide (dd = HbaPortDd.PresentAndE ∧ ipm = HbaPortIpm.Active))
  | _, _ => none

/-- The device-detection decode table exactly as the spec words it:
0, 1, 3, 4 map to None / present-not-established /
present-and-established / Offline, and every other value of the 4-bit
field is a fatal decode error. -/
def ddDecodeSpec (field : Nat) : Option HbaPortDd :=
  if field = 0 then some .None
  else if field = 1 then some .PresentNotE
  else if field = 3 then some .PresentAndE
  else if field = 4 then some .Offline
  else none

/-- The power-management decode table exactly as the spec words it: every
value outside `{0, 1, 2, 6, 8}` is a fatal decode error. -/
def ipmDecodeSpec (field : Nat) : Option HbaPortIpm :=
  if field = 0 then some .None
  else if field = 1 then some .Active
  else if field = 2 then some .Partial
  else if field = 6 then some .Slumber
  else if field = 8 then some .DevSleep
  else none

/-- Claim C9: the decoders agree with the spec's tables on the 4-bit
detection field (bits 0–3) and power-management field (bits 8–11), and a
port is started exactly when detection decodes to present-and-established
and power management decodes to Active. -/
theorem sata_decode_and_probe (ssts : Nat) :
    device_detection ssts = ddDecodeSpec (getBitsRange ssts 0 3) ∧
    interface_power_management ssts = ipmDecodeSpec (getBitsRange ssts 8 11) ∧
    (probe ssts = some true ↔
      device_detection ssts = some HbaPortDd.PresentAndE ∧
        interface_power_management ssts = some HbaPortIpm.Active) := by
  refine ⟨?_, ?_, ?_⟩
  · unfold device_detection ddDecodeSpec
    rcases getBitsRange ssts 0 3 with _ | _ | _ | _ | _ | f <;> simp
  · unfold interface_power_management ipmDecodeSpec
    rcases getBitsRange ssts 8 11 with _ | _ | _ | _ | _ | _ | _ | _ | _ | f <;>
      simp
  · unfold probe
    rcases hipm : interface_power_management ssts with _ | ipm <;>
      rcases hdd : device_detection ssts with _ | dd <;> simp

/-! ## The DMA physical allocator (`pmm_alloc`, src/drivers/ahci/mod.rs:44-116) -/

/-- `BuddyOrdering` with its `#[repr(usize)]` discriminants
(`Size4KiB = 0`, `Size8KiB = 2`). -/
inductive BuddyOrdering where
  | Size4KiB
  | Size8KiB
deriving DecidableEq

/-- The `usize` value of a `BuddyOrdering` (its declared discriminant). -/
def BuddyOrdering.raw : BuddyOrdering → Nat
  | .Size4KiB => 0
  | .Size8KiB => 2

/-- `static BUDDY_SIZE: [u64; 3] = [4 KiB, 4 KiB * 4, 2 MiB]`. -/
def BUDDY_SIZE : List Nat := [4096, 4096 * 4, 0x200000]

/-- What one call of `pmm_alloc` does, in terms of its inputs: how many
frames it takes from the frame allocator, which 4 KiB pages it maps
(physical bases), how many bytes it zero-fills at the frame's mapped
address, and the returned physical address. -/
structure PmmResult where
  framesObtained : Nat
  mappedPages : List Nat
  fillSize : Nat
  ret : Nat
deriving DecidableEq

/-- `pmm_alloc(order)`, parameterized by the physical base `phys` of the
single frame handed out by the external frame allocator: maps one 4 KiB
page for `Size4KiB` and two for `Size8KiB`, zero-fills
`BUDDY_SIZE[order as usize]` bytes, and returns `phys`.  (The
`debug_assert!(raw_order <= BUDDY_SIZE.len())` holds for both variants;
the virtual addresses are `phys` plus the global offset and are tracked
here by their physical bases.) -/
def pmm_alloc (order : BuddyOrdering) (phys : Nat) : PmmResult :=
  { framesObtained := 1
  , mappedPages :=
      match order with
      | .Size4KiB => [phys]
      | .Size8KiB => [phys, phys + 4096]
  , fillSize := BUDDY_SIZE.getD order.raw 0
  , ret := phys }

/-- Claim C6 (code bug): for the 4 KiB order `pmm_alloc` behaves as
claimed, but for the 8 KiB order — whose discriminant 2 indexes
`BUDDY_SIZE[2]` — it zero-fills `0x200000` (2 MiB) bytes, not the 8192 the
claim requires, while mapping only two 4 KiB pages. -/
theorem pmm_alloc_8k_overfill :
    pmm_alloc .Size4KiB 0x5000 = ⟨1, [0x5000], 4096, 0x5000⟩ ∧
    pmm_alloc .Size8KiB 0x5000 = ⟨1, [0x5000, 0x6000], 0x200000, 0x5000⟩ ∧
    (0x200000 : Nat) ≠ 8192 := by
  refine ⟨rfl, rfl, by norm_num⟩

/-! ## Command-header flags (`run_command`, src/drivers/ahci/mod.rs:792-804,
and `HbaCmdHeaderFlags::set_command_fis_size`, mod.rs:272-279) -/

/-- The `AtaCommand` opcodes (mod.rs:393-438). -/
inductive AtaCommand where
  | WriteDma
  | WriteDmaQueued
  | WriteMultiple
  | WriteSectors
  | ReadDma
  | ReadDmaQueued
  | ReadMultiple
  | ReadSectors
  | WriteDmaExt
  | WriteDmaQueuedExt
  | WriteMultipleExt
  | WriteSectorsExt
  | ReadDmaExt
  | ReadDmaQueuedExt
  | ReadMultipleExt
  | ReadSectorsExt
  | Packet
  | DeviceReset
  | Service
  | Nop
  | NopNopAutopoll
  | GetMediaStatus
  | FlushCache
  | FlushCacheExt
  | DataSetManagement
  | MediaEject
  | IdentifyPacketDevice
  | IdentifyDevice
  | SetFeatures
  | SetFeaturesEnableReleaseInt
  | SetFeaturesEnableServiceInt
  | SetFeaturesDisableReleaseInt
  | SetFeaturesDisableServiceInt
deriving DecidableEq

/-- `size_of::<FisRegH2D>()`: 4 header bytes (type, flags, command,
featurel), 4 bytes (lba0–lba2, device), 4 bytes (lba3–lba5, featureh), a
`u16` count, icc, control, and 4 reserved bytes — 20 bytes total. -/
def sizeOfFisRegH2D : Nat := 20

/-- `HbaCmdHeaderFlags::W` (write). -/
def flagW : Nat := 1 <<< 6

/-- `HbaCmdHeaderFlags::P` (prefetchable). -/
def flagP : Nat := 1 <<< 7

/-- `HbaCmdHeaderFlags::C` (clear busy upon R_OK). -/
def flagC : Nat := 1 <<< 10

/-- `HbaCmdHeaderFlags::set_command_fis_size` (mod.rs:272-279).  The Rust
body is `self.bits().set_bits(0..=4, size as _)`: `self.bits()` returns a
*copy* of the raw `u16`, `set_bits` mutates that temporary copy, and the
result is discarded — the flags value the method was called on is left
unchanged.  (The method's own doc comment says it sets the length of the
command FIS.) -/
def set_command_fis_size (flags size : Nat) : Nat :=
  let copy := flags
  let _updated := setBitsLow copy 5 size
  flags

/-- The command-header flags computed by `run_command`: after reading the
header's current flags (`init`, a `u16`), insert W for
`WriteDmaExt`/`WriteDma` and remove it for every other command, insert P
and C, then call the (ineffective) `set_command_fis_size` with
`size_of::<FisRegH2D>() / 4`. -/
def cmdHeaderFlags (command : AtaCommand) (init : Nat) : Nat :=
  let f0 := init % 2 ^ 16
  let f1 :=
    if command = AtaCommand.WriteDmaExt ∨ command = AtaCommand.WriteDma then
      f0 ||| flagW
    else
      f0 &&& (2 ^ 16 - 1 - flagW)
  let f2 := f1 ||| (flagP ||| flagC)
  set_command_fis_size f2 (sizeOfFisRegH2D / 4)

/-- Claim C7 (code bug): the write/prefetchable/clear-busy bits behave as
claimed, but `set_command_fis_size` discards its computation (it mutates
the temporary returned by `self.bits()`), so bits 0–4 of the header flags
keep their prior value instead of receiving the FIS size in dwords
(`size_of::<FisRegH2D>() / 4 = 5`): evaluated at prior flags 0, bits 0–4
come out 0, not 5. -/
theorem cmd_header_fis_size_missing :
    (∀ flags size : Nat, set_command_fis_size flags size = flags) ∧
    sizeOfFisRegH2D / 4 = 5 ∧
    cmdHeaderFlags AtaCommand.ReadDma 0 = flagP + flagC ∧
    cmdHeaderFlags AtaCommand.ReadDma 0 % 2 ^ 5 = 0 ∧
    cmdHeaderFlags AtaCommand.WriteDma 0 % 2 ^ 5 = 0 ∧
    Nat.testBit (cmdHeaderFlags AtaCommand.WriteDma 0) 6 = true ∧
    Nat.testBit (cmdHeaderFlags AtaCommand.ReadDma 0) 6 = false ∧
    Nat.testBit (cmdHeaderFlags AtaCommand.ReadDma 0) 7 = true ∧
    Nat.testBit (cmdHeaderFlags AtaCommand.ReadDma 0) 10 = true ∧
    Nat.testBit (cmdHeaderFlags AtaCommand.WriteDma 0) 7 = true ∧
    Nat.testBit (cmdHeaderFlags AtaCommand.WriteDma 0) 10 = true := by
  refine ⟨fun _ _ => rfl, rfl, by decide, by decide, by decide, by decide,
    by decide, by decide, by decide, by decide, by decide⟩

/-! ## The issue/wait protocol of `run_command` (src/drivers/ahci/mod.rs:836-859)

`run_command` is modelled as the ordered list of its observable register
accesses and log warnings.  Register values read from the hardware are
supplied by an environment of read oracles (`n`-th read of each
register). -/

/-- One observable event of `run_command`. -/
inductive AhciEv where
  | writeHeaderFlags (v : Nat)
  | writePrdtl (v : Nat)
  | writePrdtEntry (idx dba flags : Nat)
  | writeFis (sector count : Nat)
  | writeCI (v : Nat)
  | readTfd (v : Nat)
  | warnPortHung
  | readCI (v : Nat)
  | readIS (v : Nat)
  | warnDiskError
deriving DecidableEq

/-- Read oracles for the registers `run_command` polls. -/
structure CmdEnv where
  tfd : Nat → Nat
  ci : Nat → Nat
  isr : Nat → Nat

/-- The bounded busy-wait
`while (self.tfd.get() == 0x80 || self.tfd.get() == 0x08) && spin > 0`
(mod.rs:839-846), recorded as one `readTfd` per guard evaluation (the `||`
can perform two volatile reads per evaluation; they are modelled as one
sampled value).  Returns the events and the final value of `spin`; note
the guard reads the register even when `spin` is already 0. -/
def busyLoop (tfd : Nat → Nat) : Nat → Nat → List AhciEv × Nat
  | 0, n => ([AhciEv.readTfd (tfd n)], 0)
  | spin + 1, n =>
    let v := tfd n
    if v = 0x80 ∨ v = 0x08 then
      let r := busyLoop tfd spin (n + 1)
      (AhciEv.readTfd v :: r.1, r.2)
    else
      ([AhciEv.readTfd v], spin + 1)

/-- One guard evaluation of the completion wait
`while self.ci.get() & (1 << slot) == 1` (mod.rs:854): the masked CI value
is compared for equality with `1`. -/
def ciWaitGuard (ci slot : Nat) : Bool :=
  (ci &&& (1 <<< slot)) == 1

/-- The completion wait of `run_command` (mod.rs:853-859), fuel-bounded
(the Rust loop is unbounded): while the guard holds, the interrupt status
is read and checked for TFES (bit 30), warning and breaking out if it is
set. -/
def completionLoop (ci isr : Nat → Nat) (slot : Nat) : Nat → Nat → List AhciEv
  | 0, _ => []
  | fuel + 1, n =>
    let c := ci n
    if ciWaitGuard c slot then
      let i := isr n
      if Nat.testBit i 30 then
        [AhciEv.readCI c, AhciEv.readIS i, AhciEv.warnDiskError]
      else
        AhciEv.readCI c :: AhciEv.readIS i :: completionLoop ci isr slot fuel (n + 1)
    else
      [AhciEv.readCI c]

/-- `HbaPort::run_command` (mod.rs:784-860) as its ordered observable
activity: write the header flags and PRDT entry count, write the PRDT
entries, fill in the command FIS (its individual field stores — control,
icc, features, type, device, command opcode, count, LBA bytes, command bit
— are summarized as one `writeFis` event; no claim concerns their values),
set the slot's bit in CI, run the bounded busy-wait, then either warn that
the port hung (spin count exhausted, early return) or run the completion
wait. -/
def run_command (command : AtaCommand) (sector count slot : Nat)
    (buffer : List DmaBuffer) (initHeader : Nat) (initPrdt : Nat → Nat)
    (env : CmdEnv) (fuel : Nat) : List AhciEv :=
  let length := prdtEntryCount count
  let entries := buildPrdt buffer length initPrdt
  let busy := busyLoop env.tfd 100 0
  (AhciEv.writeHeaderFlags (cmdHeaderFlags command initHeader) ::
      AhciEv.writePrdtl length ::
      (entries.enum.map fun p => AhciEv.writePrdtEntry p.1 p.2.1 p.2.2)) ++
    [AhciEv.writeFis sector count, AhciEv.writeCI (1 <<< slot)] ++
    busy.1 ++
    (if busy.2 = 0 then [AhciEv.warnPortHung]
     else completionLoop env.ci env.isr slot fuel 0)

/-- Claim C2 (code bug): the completion-wait guard compares
`ci & (1 << slot)` against `1` for equality, so for every slot ≥ 1 it is
false no matter what CI holds, and the wait loop exits immediately without
ever checking the task-file-error bit — demonstrated with slot 1, CI
permanently reading `0b10` (bit 1 set) and TFES raised: the loop performs a
single CI read and stops.  Only slot 0 is genuinely waited for. -/
theorem ci_wait_skipped :
    (∀ ci slot : Nat, 1 ≤ slot → ciWaitGuard ci slot = false) ∧
    completionLoop (fun _ => 2) (fun _ => 2 ^ 30) 1 100 0 = [AhciEv.readCI 2] ∧
    Nat.testBit 2 1 = true ∧
    ciWaitGuard 1 0 = true := by
  refine ⟨?_, by decide, by decide, by decide⟩
  intro ci slot h
  unfold ciWaitGuard
  rw [Nat.shiftLeft_eq, one_mul, Nat.and_two_pow]
  cases hb : Nat.testBit ci slot
  · simp
  · simp only [Bool.toNat_true, one_mul, beq_eq_false_iff_ne]
    exact (Nat.one_lt_two_pow_iff.2 (by omega)).ne'

/-- Witness for `ci_wait_skipped`: slot 1 with CI reading `0b10` — the
guard is false although the slot's bit is set. -/
theorem ci_wait_skipped_witness :
    ciWaitGuard 2 1 = false ∧ Nat.testBit 2 1 = true :=
  ⟨ci_wait_skipped.1 2 1 (by norm_num), by decide⟩

/-- An environment in which the task-file-data register permanently reads
0x80 (busy): the busy-wait can never succeed. -/
def envBusy : CmdEnv :=
  ⟨fun _ => 0x80, fun _ => 0, fun _ => 0⟩

/-- Counterexample to claim C3: issuing one read of sector 0 on slot 0 with
the port permanently busy, the CI write sits at index 4 of the trace and
every one of the 101 task-file-data polls comes *after* it (first at index
5); when the 100-spin bound is exhausted the port-hung warning fires, but
the command-issue write has already happened — the claim's ordering
(busy-wait before issuing, CI never set on exhaustion) fails on the code. -/
theorem run_command_wait_after_issue_cex :
    run_command AtaCommand.ReadDma 0 1 0 [⟨4096, 512⟩] 0 (fun _ => 0) envBusy 0
      = [AhciEv.writeHeaderFlags 1152, AhciEv.writePrdtl 1,
          AhciEv.writePrdtEntry 0 4096 (2 ^ 31 + 511),
          AhciEv.writeFis 0 1, AhciEv.writeCI 1] ++
        List.replicate 101 (AhciEv.readTfd 0x80) ++ [AhciEv.warnPortHung] ∧
    (run_command AtaCommand.ReadDma 0 1 0 [⟨4096, 512⟩] 0 (fun _ => 0) envBusy
        0).indexOf (AhciEv.writeCI 1) = 4 ∧
    (run_command AtaCommand.ReadDma 0 1 0 [⟨4096, 512⟩] 0 (fun _ => 0) envBusy
        0).indexOf (AhciEv.readTfd 0x80) = 5 ∧
    AhciEv.warnPortHung ∈
      run_command AtaCommand.ReadDma 0 1 0 [⟨4096, 512⟩] 0 (fun _ => 0) envBusy 0
    := by decide

theorem busyLoop_events_readTfd (tfd : Nat → Nat) :
    ∀ spin n, ∀ e ∈ (busyLoop tfd spin n).1, ∃ v, e = AhciEv.readTfd v := by
  intro spin
  induction spin with
  | zero =>
    intro n e he
    simp [busyLoop] at he
    exact ⟨tfd n, he⟩
  | succ s ih =>
    intro n e he
    rw [busyLoop] at he
    by_cases hg : tfd n = 0x80 ∨ tfd n = 0x08
    · simp only [if_pos hg] at he
      rcases List.mem_cons.1 he with h | h
      · exact ⟨tfd n, h⟩
      · exact ih (n + 1) e h
    · simp only [if_neg hg] at he
      simp at he
      exact ⟨tfd n, he⟩

theorem busyLoop_length_le (tfd : Nat → Nat) :
    ∀ spin n, (busyLoop tfd spin n).1.length ≤ spin + 1 := by
  intro spin
  induction spin with
  | zero => intro n; simp [busyLoop]
  | succ s ih =>
    intro n
    rw [busyLoop]
    by_cases hg : tfd n = 0x80 ∨ tfd n = 0x08
    · simp only [if_pos hg]
      have := ih (n + 1)
      simp only [List.length_cons]
      omega
    · simp only [if_neg hg]
      simp

/-- Claim C3 as amended: the bounded busy-wait (at most 100 spins, hence at
most 101 task-file-data reads) happens immediately *after* the command's
bit is written to the command-issue register, not before; no register event
preceding the CI write is a task-file-data poll, and if the spin bound is
exhausted the command is abandoned with the port-hung warning — but with
the command-issue bit already set. -/
theorem run_command_wait_after_issue (command : AtaCommand)
    (sector count slot : Nat) (buffer : List DmaBuffer) (initHeader : Nat)
    (initPrdt : Nat → Nat) (env : CmdEnv) (fuel : Nat) :
    ∃ pre tail,
      run_command command sector count slot buffer initHeader initPrdt env fuel
        = pre ++ AhciEv.writeCI (1 <<< slot) ::
            ((busyLoop env.tfd 100 0).1 ++ tail) ∧
      (∀ e ∈ pre, ∀ v, e ≠ AhciEv.readTfd v) ∧
      (∀ e ∈ (busyLoop env.tfd 100 0).1, ∃ v, e = AhciEv.readTfd v) ∧
      (busyLoop env.tfd 100 0).1.length ≤ 101 ∧
      ((busyLoop env.tfd 100 0).2 = 0 → tail = [AhciEv.warnPortHung]) := by
  refine ⟨AhciEv.writeHeaderFlags (cmdHeaderFlags command initHeader) ::
      AhciEv.writePrdtl (prdtEntryCount count) ::
      (((buildPrdt buffer (prdtEntryCount count) initPrdt).enum.map fun p =>
        AhciEv.writePrdtEntry p.1 p.2.1 p.2.2) ++ [AhciEv.writeFis sector count]),
    (if (busyLoop env.tfd 100 0).2 = 0 then [AhciEv.warnPortHung]
     else completionLoop env.ci env.isr slot fuel 0), ?_, ?_, ?_, ?_, ?_⟩
  · unfold run_command
    simp [List.append_assoc]
  · intro e he v
    simp only [List.mem_cons, List.mem_append, List.mem_map,
      List.mem_singleton] at he
    rcases he with rfl | rfl | ⟨p, _, rfl⟩ | (rfl | hf)
    · simp
    · simp
    · simp
    · simp
    · exact absurd hf (List.not_mem_nil e)
  · exact busyLoop_events_readTfd env.tfd 100 0
  · exact busyLoop_length_le env.tfd 100 0
  · intro h
    rw [if_pos h]

/-- Witness for `run_command_wait_after_issue` on a concrete permanently
busy port. -/
theorem run_command_wait_after_issue_witness :
    ∃ pre tail,
      run_command AtaCommand.ReadDma 7 1 0 [⟨8192, 512⟩] 0 (fun _ => 0) envBusy 3
        = pre ++ AhciEv.writeCI (1 <<< 0) ::
            ((busyLoop envBusy.tfd 100 0).1 ++ tail) ∧
      (∀ e ∈ pre, ∀ v, e ≠ AhciEv.readTfd v) ∧
      (∀ e ∈ (busyLoop envBusy.tfd 100 0).1, ∃ v, e = AhciEv.readTfd v) ∧
      (busyLoop envBusy.tfd 100 0).1.length ≤ 101 ∧
      ((busyLoop envBusy.tfd 100 0).2 = 0 → tail = [AhciEv.warnPortHung]) :=
  run_command_wait_after_issue AtaCommand.ReadDma 7 1 0 [⟨8192, 512⟩] 0
    (fun _ => 0) envBusy 3

/-! ## The block-read path (`AhciPortProtected::run_request` /
`AhciPort::run_request` / `AhciPort::read`, src/drivers/ahci/mod.rs:887-971) -/

/-- The mutable per-port state: the 32 command slots (`none` = empty slot,
`some ()` = in-flight command holding its request) and the free-slot
counter. -/
structure PortState where
  cmds : List (Option Unit)
  free_cmds : Nat
deriving DecidableEq

/-- `AhciPort::new`: all 32 slots empty. -/
def AhciPort.new : PortState :=
  ⟨List.replicate 32 none, 32⟩

/-- The `while remaining > 0` loop of `AhciPortProtected::run_request`
(mod.rs:890-924): find the first empty slot (`find_map` over the slot
array); if none is free return the current offset (backpressure);
otherwise issue `min(remaining, 128)` sectors on that slot via
`run_command` (whose register activity is modelled separately and does not
touch the port bookkeeping), mark the slot occupied, decrement the
free-slot count and continue.  Every iteration advances `offset` by at
least one sector, so the loop is bounded by `remaining`; the wrapper
`runRequestInner` passes exactly that bound as structural fuel, which
therefore never runs out. -/
def runRequestInnerGo : Nat → Nat → Nat → PortState → Nat × PortState
  | 0, _, offset, st => (offset, st)
  | fuel + 1, reqCount, offset, st =>
    if reqCount - offset = 0 then (offset, st)
    else
      match st.cmds.findIdx? (fun e => e.isNone) with
      | some i =>
        runRequestInnerGo fuel reqCount (offset + min (reqCount - offset) 128)
          ⟨st.cmds.set i (some ()), st.free_cmds - 1⟩
      | none => (offset, st)

/-- `AhciPortProtected::run_request(request, offset)` for a request of
`reqCount` sectors: final offset and port state. -/
def runRequestInner (reqCount offset : Nat) (st : PortState) : Nat × PortState :=
  runRequestInnerGo (reqCount - offset) reqCount offset st

/-- The `while offset < request.count` loop of `AhciPort::run_request`
(mod.rs:949-958): repeatedly call the inner slot-scheduling step, then
return `Some(request.count * 512)`.  The Rust loop spins forever when no
progress is possible; `fuel` bounds the iterations and `none` models
non-termination. -/
def runRequestOuter : Nat → Nat → Nat → PortState → Option (Nat × PortState)
  | 0, reqCount, offset, st =>
    if offset < reqCount then none else some (reqCount * 512, st)
  | fuel + 1, reqCount, offset, st =>
    if offset < reqCount then
      let r := runRequestInner reqCount offset st
      runRequestOuter fuel reqCount r.1 r.2
    else some (reqCount * 512, st)

/-- What `AhciPort::read` does: the sector count passed to
`DmaRequest::new` and the returned value. -/
structure ReadOutcome where
  requestedCount : Nat
  result : Option Nat
deriving DecidableEq

/-- `AhciPort::read(sector, buffer)` (mod.rs:960-971) for a destination
buffer of `bufLen` bytes: `count = (buffer.len() + 512 - 1) / 512`, build
the request, drive it to completion with the slot-scheduling step, then
copy the gathered data out (the copy does not affect the returned
value). -/
def ahciRead (_sector bufLen : Nat) (st : PortState) (fuel : Nat) : ReadOutcome :=
  let count := (bufLen + 512 - 1) / 512
  ⟨count, (runRequestOuter fuel count 0 st).map fun r => r.1⟩

theorem runRequestOuter_some (reqCount : Nat) :
    ∀ (fuel offset : Nat) (st : PortState) (r : Nat × PortState),
      runRequestOuter fuel reqCount offset st = some r → r.1 = reqCount * 512 := by
  intro fuel
  induction fuel with
  | zero =>
    intro offset st r h
    rw [runRequestOuter] at h
    by_cases ho : offset < reqCount
    · rw [if_pos ho] at h
      cases h
    · rw [if_neg ho] at h
      cases h
      rfl
  | succ f ih =>
    intro offset st r h
    rw [runRequestOuter] at h
    by_cases ho : offset < reqCount
    · rw [if_pos ho] at h
      exact ih _ _ r h
    · rw [if_neg ho] at h
      cases h
      rfl

/-- Claim C8: for a non-empty destination buffer, `AhciPort::read` requests
exactly `⌈bufLen / 512⌉` sectors (the two inequalities pin the rounded-up
quotient), and whenever it returns a byte count at all, that count is the
full `requestedCount * 512` (and `none` — the case the claim reserves for
"no data could be read" — is produced by no terminating run). -/
theorem ahci_read_result (sector bufLen fuel : Nat) (st : PortState)
    (hbuf : 1 ≤ bufLen) :
    bufLen ≤ 512 * (ahciRead sector bufLen st fuel).requestedCount ∧
    512 * (ahciRead sector bufLen st fuel).requestedCount < bufLen + 512 ∧
    ∀ n, (ahciRead sector bufLen st fuel).result = some n →
      n = (ahciRead sector bufLen st fuel).requestedCount * 512 := by
  refine ⟨?_, ?_, ?_⟩
  · show bufLen ≤ 512 * ((bufLen + 512 - 1) / 512)
    omega
  · show 512 * ((bufLen + 512 - 1) / 512) < bufLen + 512
    omega
  · intro n h
    have h' : (runRequestOuter fuel ((bufLen + 512 - 1) / 512) 0 st).map
        (fun r => r.1) = some n := h
    rcases ho : runRequestOuter fuel ((bufLen + 512 - 1) / 512) 0 st with _ | r
    · rw [ho] at h'
      cases h'
    · rw [ho] at h'
      have hr := runRequestOuter_some ((bufLen + 512 - 1) / 512) fuel 0 st r ho
      simp at h'
      rw [← h', hr]
      rfl

/-- Witness for `ahci_read_result`: a 512-byte read on a fresh port with
two outer iterations of fuel. -/
theorem ahci_read_result_witness :
    512 ≤ 512 * (ahciRead 0 512 AhciPort.new 2).requestedCount ∧
    512 * (ahciRead 0 512 AhciPort.new 2).requestedCount < 512 + 512 ∧
    ∀ n, (ahciRead 0 512 AhciPort.new 2).result = some n →
      n = (ahciRead 0 512 AhciPort.new 2).requestedCount * 512 :=
  ahci_read_result 0 512 2 AhciPort.new (by norm_num)

end Cryptos
